import Mathlib

/-!
Verification of the r_monitor historical series store, derived metrics,
health tracker and chart synthesizer (`src/storage.py`, `src/health.py`,
`src/report.py`, `src/main.py`).

Modelling conventions (shallow embedding):
* A pandas `DataFrame` is a rectangular `Frame`: a list of column names and a
  list of rows, each row a list of cell values aligned with the columns.
* A cell value (`Val`) is a string, an integer, or null (pandas `NaN` /
  Python `None`).  Numeric observations are modelled on integers; the claims
  under study are scale-independent so this loses no generality.
* Calendar dates are modelled two ways, matching the two ways the source
  handles them: as strings where the code compares them with
  `.astype(str)` (the duplicate checks in `append_row` / `append_rows`,
  the mask in `_upsert_esaver`), and as integer day numbers where the code
  does date arithmetic after `pd.to_datetime` (`get_change`,
  `check_staleness`, the chart builder).  ISO `YYYY-MM-DD` strings order
  lexicographically exactly as the underlying dates, so `sort_values` on a
  parsed date column is modelled by sorting on the corresponding key.
* `pd.concat` aligns columns by name, padding missing cells with null, with
  the left frame's column order first and new columns appended in order of
  first appearance — `Frame.concat` reproduces this.
-/

namespace RMonitor

/-- A cell value of a stored table: string, integer, or null (NaN/None). -/
inductive Val where
  | str (s : String)
  | int (n : Int)
  | null
deriving DecidableEq, Repr

/-- Python `str(x)` as applied by `.astype(str)` to a cell: pandas renders
`NaN` as `"nan"`. -/
def Val.toStr : Val → String
  | .str s => s
  | .int n => toString n
  | .null => "nan"

/-- Python truthiness of a cell value (`if date_val:`): empty string, zero
and `None` are falsy. -/
def Val.truthy : Val → Bool
  | .str s => s ≠ ""
  | .int n => n ≠ 0
  | .null => false

/-- Numeric view of a cell, used where the source has already coerced the
column (`pd.to_datetime` on a date column, `astype(float)` on a numeric
column).  The claims only exercise it on integer cells. -/
def Val.toIntD : Val → Int
  | .int n => n
  | _ => 0

/-- Numeric conversion that can fail, modelling `float(x)` inside the
`try/except` of `get_change`: null raises `TypeError`, non-numeric strings
raise `ValueError`. -/
def Val.toIntOpt : Val → Option Int
  | .int n => some n
  | .str s => s.toInt?
  | .null => none

/-- `true` iff the cell is an integer or null — the well-formedness used by
numeric columns. -/
def Val.intOrNull : Val → Bool
  | .int _ => true
  | .null => true
  | .str _ => false

/-- An incoming observation row: a Python dict from column name to value
(keys unique). -/
abbrev Rowd := List (String × Val)

/-- A pandas DataFrame: named columns plus rectangular rows. -/
structure Frame where
  cols : List String
  rows : List (List Val)
deriving DecidableEq, Repr

/-- `pd.DataFrame()` — the empty frame returned by `load_csv` when the file
is missing or malformed. -/
def Frame.empty : Frame := ⟨[], []⟩

/-- Read the cell of `row` in column `c`, walking columns and cells in
parallel; absent columns (and ragged rows) read as null, as a column missing
from a concatenated frame does in pandas. -/
def cellAt : List String → List Val → String → Val
  | [], _, _ => .null
  | _ :: _, [], _ => .null
  | c0 :: cs, v :: vs, c => if c0 = c then v else cellAt cs vs c

/-- Re-express a row laid out over `oldCols` over the column list
`newCols`, padding with nulls — the column alignment `pd.concat` performs. -/
def alignRow (oldCols : List String) (row : List Val) (newCols : List String) : List Val :=
  newCols.map (cellAt oldCols row)

/-- Union of two column lists, keeping the left order and appending new
names in order of first appearance, as `pd.concat` does. -/
def unionCols (a b : List String) : List String :=
  a ++ b.filter (fun c => ¬ a.contains c)

/-- `pd.concat([f, g], ignore_index=True)`. -/
def Frame.concat (f g : Frame) : Frame :=
  let cs := unionCols f.cols g.cols
  ⟨cs, f.rows.map (fun row => alignRow f.cols row cs)
        ++ g.rows.map (fun row => alignRow g.cols row cs)⟩

/-- `pd.DataFrame([row])` for a single dict (dict keys are unique, so the
key list is the column list). -/
def frameOfRow (row : Rowd) : Frame :=
  ⟨row.map Prod.fst, [(row.map Prod.fst).map (fun c => (row.lookup c).getD .null)]⟩

/-- `pd.DataFrame(rows)` for a list of dicts: columns in order of first
appearance, missing keys as null. -/
def frameOfRows (rows : List Rowd) : Frame :=
  let cs := rows.foldl (fun acc row => unionCols acc (row.map Prod.fst)) []
  ⟨cs, rows.map (fun row => cs.map (fun c => (row.lookup c).getD .null))⟩

/-- Lexicographic comparison of character lists by code point. -/
def listCharLe : List Char → List Char → Bool
  | [], _ => true
  | _ :: _, [] => false
  | a :: as, b :: bs =>
    if a.toNat < b.toNat then true
    else if b.toNat < a.toNat then false
    else listCharLe as bs

/-- Lexicographic string comparison; on ISO `YYYY-MM-DD` date strings this
coincides with chronological order, which is how `sort_values` on a parsed
date column is modelled. -/
def strLe (a b : String) : Bool := listCharLe a.data b.data

/-- `df.sort_values(key)` where the key column is compared as strings
(equivalently, as parsed ISO dates). -/
def sortRowsByStrKey (cols : List String) (key : String) (rows : List (List Val)) :
    List (List Val) :=
  rows.insertionSort (fun a b => strLe (cellAt cols a key).toStr (cellAt cols b key).toStr = true)

/-- `df.sort_values(key)` where the key column holds parsed dates, modelled
as integer day numbers. -/
def sortRowsByIntKey (cols : List String) (key : String) (rows : List (List Val)) :
    List (List Val) :=
  rows.insertionSort (fun a b => (cellAt cols a key).toIntD ≤ (cellAt cols b key).toIntD)

/-- The date column of a frame rendered as strings:
`df["date"].astype(str).values`. -/
def dateStrs (f : Frame) : List String :=
  f.rows.map (fun row => (cellAt f.cols row "date").toStr)

/-- The number of stored rows whose date renders as `d`. -/
def dateCount (f : Frame) (d : String) : Nat :=
  (f.rows.filter (fun row => (cellAt f.cols row "date").toStr = d)).length

/-- `row.get("date", "")` rendered as a string. -/
def rowDateStr (row : Rowd) : String :=
  ((row.lookup "date").getD (.str "")).toStr

/-- `storage.append_row`: skip when the frame is non-empty, has a date
column, the incoming date is truthy and already present; otherwise
concatenate the one-row frame (no sort). -/
def append_row (f : Frame) (row : Rowd) : Frame :=
  let dv := (row.lookup "date").getD (.str "")
  if f.rows ≠ [] ∧ "date" ∈ f.cols ∧ dv.truthy = true ∧ dv.toStr ∈ dateStrs f then f
  else f.concat (frameOfRow row)

/-- The persisted date snapshot `append_rows` filters against:
`existing_dates` in the source (empty when the frame is empty or has no
date column). -/
def snapshotDates (f : Frame) : List String :=
  if f.rows ≠ [] ∧ "date" ∈ f.cols then dateStrs f else []

/-- The incoming rows `append_rows` keeps: those whose date string is not in
the persisted snapshot's date set. -/
def newBatchRows (f : Frame) (rows : List Rowd) : List Rowd :=
  rows.filter (fun row => ¬ rowDateStr row ∈ snapshotDates f)

/-- The table is sorted ascending by the rendered `key` column: each
adjacent (indeed each ordered) pair of rows compares `≤` on the key. -/
def sortedByKeyCol (f : Frame) (key : String) : Prop :=
  List.Pairwise
    (fun a b => strLe (cellAt f.cols a key).toStr (cellAt f.cols b key).toStr = true) f.rows

instance (f : Frame) (key : String) : Decidable (sortedByKeyCol f key) :=
  List.instDecidablePairwise _

/-- `storage.append_rows`: filter against the persisted snapshot, concat,
then sort by date when a date column exists. -/
def append_rows (f : Frame) (rows : List Rowd) : Frame :=
  if rows = [] then f
  else
    let newRows := newBatchRows f rows
    if newRows = [] then f
    else
      let f2 := f.concat (frameOfRows newRows)
      if "date" ∈ f2.cols then ⟨f2.cols, sortRowsByStrKey f2.cols "date" f2.rows⟩
      else f2

/-- The row produced by `_upsert_esaver`'s update loop
(`for k, v in esaver.items(): if v is not None and k in df.columns:
df.at[idx, k] = v`): each column keeps its old cell unless the incoming
dict carries a non-null value for it. -/
def updatedRow (cols : List String) (es : Rowd) (row : List Val) : List Val :=
  cols.map (fun c =>
    match es.lookup c with
    | some v => if v = .null then cellAt cols row c else v
    | none => cellAt cols row c)

/-- Replace the first row whose `promo_month` renders as `target` by its
update; `df[mask].index[0]` picks exactly the first match. -/
def updateFirstMatch (cols : List String) (es : Rowd) (target : String) :
    List (List Val) → List (List Val)
  | [] => []
  | row :: rest =>
    if (cellAt cols row "promo_month").toStr = target then updatedRow cols es row :: rest
    else row :: updateFirstMatch cols es target rest

/-- `main._upsert_esaver`: update the first row matching the incoming
`promo_month` in place, else append the new row and sort by `promo_month`. -/
def upsert_esaver (f : Frame) (es : Rowd) : Frame :=
  let month := (es.lookup "promo_month").getD .null
  if f.rows ≠ [] ∧ "promo_month" ∈ f.cols ∧
      f.rows.any (fun row => (cellAt f.cols row "promo_month").toStr = month.toStr) then
    ⟨f.cols, updateFirstMatch f.cols es month.toStr f.rows⟩
  else
    let f2 := f.concat (frameOfRow es)
    ⟨f2.cols, sortRowsByStrKey f2.cols "promo_month" f2.rows⟩

/-- `df.sort_values("date")` inside `get_change`, after `pd.to_datetime`. -/
def sortedByDateInt (f : Frame) : List (List Val) :=
  sortRowsByIntKey f.cols "date" f.rows

/-- The non-null observations of `column`, date-sorted:
`df.sort_values("date").dropna(subset=[column])`. -/
def nonNullObs (f : Frame) (column : String) : List (List Val) :=
  (sortedByDateInt f).filter (fun row => cellAt f.cols row column ≠ .null)

/-- `storage.get_change(name, column, days)` with `now` made explicit:
latest value minus the value at the cutoff `now - days`, falling back to
the earliest observation when nothing lies on or before the cutoff. -/
def get_change (f : Frame) (column : String) (days now : Int) : Option Int :=
  if f.rows = [] ∨ "date" ∉ f.cols ∨ column ∉ f.cols then none
  else
    let obs := nonNullObs f column
    if obs.length < 2 then none
    else
      let latest := cellAt f.cols (obs.getLast?.getD []) column
      let cutoff := now - days
      let past := obs.filter (fun row => (cellAt f.cols row "date").toIntD ≤ cutoff)
      let pastVal :=
        if past = [] then cellAt f.cols (obs.head?.getD []) column
        else cellAt f.cols (past.getLast?.getD []) column
      match latest.toIntOpt, pastVal.toIntOpt with
      | some a, some b => some (a - b)
      | _, _ => none

/-! ### Health tracker (`src/health.py`) -/

/-- One entry of `fetch_health.json`. -/
structure HealthInfo where
  consecutive_failures : Nat
  last_success : Option String
  last_failure : Option String
deriving DecidableEq, Repr

/-- The persisted health map: a Python dict, insertion-ordered. -/
abbrev HealthState := List (String × HealthInfo)

/-- Replace the entry for `source` with `x`, leaving other keys alone —
the in-place `state[source] = ...` mutation of the Python dict. -/
def updEntry (source : String) (x : HealthInfo) (q : String × HealthInfo) :
    String × HealthInfo :=
  if q.1 = source then (q.1, x) else q

/-- `health.record_fetch_result` with the clock made explicit: reset the
counter and stamp `last_success` on success, increment and stamp
`last_failure` on failure; returns the saved state and the post-update
counter. -/
def record_fetch_result (state : HealthState) (source : String) (success : Bool)
    (now : String) : HealthState × Nat :=
  let st1 := if state.lookup source = none then state ++ [(source, ⟨0, none, none⟩)] else state
  let old := (st1.lookup source).getD ⟨0, none, none⟩
  let newInfo :=
    if success then { old with consecutive_failures := 0, last_success := some now }
    else { old with consecutive_failures := old.consecutive_failures + 1,
                    last_failure := some now }
  (st1.map (updEntry source newInfo), newInfo.consecutive_failures)

/-- `health.get_alerts`: sources whose `consecutive_failures >= threshold`. -/
def get_alerts (state : HealthState) (threshold : Nat) : List String :=
  (state.filter (fun p => threshold ≤ p.2.consecutive_failures)).map Prod.fst

/-! ### Staleness check (`health.check_staleness`) -/

/-- The fixed list of CSVs `check_staleness` examines. -/
def csvs_to_check : List String :=
  ["hibor_daily", "fed_rates", "sofr", "treasury_yields", "ib_rates"]

/-- `pd.to_datetime(df["date"]).max()` with dates as integer day numbers. -/
def lastDateOf (f : Frame) : Int :=
  let dates := f.rows.map (fun row => (cellAt f.cols row "date").toIntD)
  dates.foldl max (dates.headD 0)

/-- The loop body of `check_staleness` for one series: the sentinel
`(name, "no data", -1)` when the table is empty or has no date column,
an entry with the day gap when the gap exceeds the threshold, nothing
otherwise. -/
def staleEntry (f : Frame) (name : String) (thresholdDays today : Int) :
    Option (String × String × Int) :=
  if f.rows = [] ∨ "date" ∉ f.cols then some (name, "no data", -1)
  else if today - lastDateOf f > thresholdDays then
    some (name, toString (lastDateOf f), today - lastDateOf f)
  else none

/-- `health.check_staleness` with the per-name loader and the clock made
explicit. -/
def check_staleness (load : String → Frame) (thresholdDays today : Int) :
    List (String × String × Int) :=
  csvs_to_check.filterMap (fun n => staleEntry (load n) n thresholdDays today)

/-! ### Chart synthesizer scale logic (`report._build_hkd_chart_svg`)

The SVG body depends on the data only through the guards below and the
affine scale; `ChartScale` records the scale, and `buildHkdChartScale`
returns `none` exactly when the Python function returns the empty string
(once past the guards the function always emits a non-empty `<svg>`
document).  Values are rendered exactly, over `ℚ`. -/

/-- The affine scale the chart is drawn with. -/
structure ChartScale where
  dateMin : Int
  dateMax : Int
  valMin : ℚ
  valMax : ℚ
  valRange : ℚ
deriving DecidableEq, Repr

/-- One entry of `series_defs`: label, color, source CSV, column, step
mode. -/
structure SeriesDef where
  label : String
  color : String
  csvName : String
  column : String
  step : Bool
deriving DecidableEq, Repr

/-- The four HIBOR tenor series always present in `series_defs`. -/
def baseSeriesDefs : List SeriesDef :=
  [⟨"HIBOR O/N", "#60a5fa", "hibor_daily", "Overnight", false⟩,
   ⟨"HIBOR 1M", "#38bdf8", "hibor_daily", "1 Month", false⟩,
   ⟨"HIBOR 3M", "#22d3ee", "hibor_daily", "3 Months", false⟩,
   ⟨"HIBOR 12M", "#a78bfa", "hibor_daily", "12 Months", false⟩]

/-- `series_defs` after the conditional prime-rate and IB additions. -/
def chartSeriesDefs (prime ib : Frame) : List SeriesDef :=
  baseSeriesDefs
    ++ (if prime.rows ≠ [] ∧ "date" ∈ prime.cols then
          (if "HSBC" ∈ prime.cols then
            [⟨"HSBC Prime", "#f97316", "prime_rates", "HSBC", true⟩] else [])
          ++ (if "DBS" ∈ prime.cols then
            [⟨"DBS Prime", "#ef4444", "prime_rates", "DBS", true⟩] else [])
        else [])
    ++ (if ib.rows ≠ [] ∧ "date" ∈ ib.cols ∧ "hkd_rate" ∈ ib.cols then
          [⟨"IB HKD", "#fbbf24", "ib_rates", "hkd_rate", false⟩] else [])

/-- The `dfs` dictionary: hibor always (date-sorted), prime and IB only
when non-empty (sorted when they have a date column, as the source sorts
them inside that guard). -/
def chartFrameFor (hibor prime ib : Frame) (csvName : String) : Option Frame :=
  let sortF : Frame → Frame := fun f =>
    if "date" ∈ f.cols then ⟨f.cols, sortRowsByIntKey f.cols "date" f.rows⟩ else f
  if csvName = "hibor_daily" then some (sortF hibor)
  else if csvName = "prime_rates" then
    if prime.rows ≠ [] then some (sortF prime) else none
  else if csvName = "ib_rates" then
    if ib.rows ≠ [] then some (sortF ib) else none
  else none

/-- The `(dates, values)` contribution of one series definition:
`df[["date", col]].dropna(subset=[col])`. -/
def seriesPoints (hibor prime ib : Frame) (sd : SeriesDef) : List Int × List Int :=
  match chartFrameFor hibor prime ib sd.csvName with
  | none => ([], [])
  | some df =>
    if sd.column ∈ df.cols then
      let s := df.rows.filter (fun row => cellAt df.cols row sd.column ≠ .null)
      (s.map (fun row => (cellAt df.cols row "date").toIntD),
       s.map (fun row => (cellAt df.cols row sd.column).toIntD))
    else ([], [])

/-- `all_dates`: the union of the selected series' date lists. -/
def chartAllDates (hibor prime ib : Frame) : List Int :=
  ((chartSeriesDefs prime ib).map (seriesPoints hibor prime ib)).foldl
    (fun acc p => acc ++ p.1) []

/-- `all_vals`: the union of the selected series' value lists. -/
def chartAllVals (hibor prime ib : Frame) : List Int :=
  ((chartSeriesDefs prime ib).map (seriesPoints hibor prime ib)).foldl
    (fun acc p => acc ++ p.2) []

/-- `min(l)` of a non-empty list (unused default for the empty list). -/
def listMin (l : List Int) : Int := l.foldl min (l.headD 0)

/-- `max(l)` of a non-empty list (unused default for the empty list). -/
def listMax (l : List Int) : Int := l.foldl max (l.headD 0)

/-- The scale-determination prefix of `report._build_hkd_chart_svg`:
`none` iff the function returns `""` — hibor missing its data or date
column, no selected observations, or a zero date range.  Note the
all-values-equal case does not return `""`: `val_range` is clamped to `1`
before the 5% padding is applied. -/
def buildHkdChartScale (hibor prime ib : Frame) : Option ChartScale :=
  if hibor.rows = [] ∨ "date" ∉ hibor.cols then none
  else
    let allDates := chartAllDates hibor prime ib
    let allVals := chartAllVals hibor prime ib
    if allDates = [] ∨ allVals = [] then none
    else
      let dateMin := listMin allDates
      let dateMax := listMax allDates
      if dateMax - dateMin = 0 then none
      else
        let valMin0 : ℚ := (listMin allVals : ℤ)
        let valMax0 : ℚ := (listMax allVals : ℤ)
        let r0 := valMax0 - valMin0
        let r1 := if r0 = 0 then 1 else r0
        let vMin := valMin0 - r1 * (1 / 20)
        let vMax := valMax0 + r1 * (1 / 20)
        some ⟨dateMin, dateMax, vMin, vMax, vMax - vMin⟩

/-! ### Basic lemmas about cells, columns and sorting -/

/-- A column not in the layout always reads null. -/
lemma cellAt_not_mem {cols : List String} {c : String} (h : c ∉ cols) :
    ∀ row, cellAt cols row c = .null := by
  induction cols with
  | nil => intro row; rfl
  | cons c0 cs ih =>
    intro row
    cases row with
    | nil => rfl
    | cons v vs =>
      have hne : c0 ≠ c := fun he => h (he ▸ List.mem_cons_self c0 cs)
      simpa [cellAt, hne] using ih (fun hc => h (List.mem_cons_of_mem _ hc)) vs

/-- Reading a row built by mapping a function over the column list. -/
lemma cellAt_map_cols (cols : List String) (fn : String → Val) (c : String) :
    cellAt cols (cols.map fn) c = if c ∈ cols then fn c else .null := by
  induction cols with
  | nil => simp [cellAt]
  | cons c0 cs ih =>
    by_cases h : c0 = c
    · subst h; simp [cellAt]
    · simp [cellAt, h, ih, Ne.symm h]

/-- Alignment preserves cell reads for columns present in the new layout. -/
lemma cellAt_alignRow (oldCols : List String) (row : List Val) (newCols : List String)
    (c : String) :
    cellAt newCols (alignRow oldCols row newCols) c =
      if c ∈ newCols then cellAt oldCols row c else .null :=
  cellAt_map_cols newCols (cellAt oldCols row) c

lemma mem_unionCols {c : String} {a b : List String} :
    c ∈ unionCols a b ↔ c ∈ a ∨ c ∈ b := by
  simp only [unionCols, List.mem_append, List.mem_filter, List.contains_iff_exists_mem_beq]
  constructor
  · rintro (h | ⟨h, _⟩)
    · exact Or.inl h
    · exact Or.inr h
  · rintro (h | h)
    · exact Or.inl h
    · by_cases ha : c ∈ a
      · exact Or.inl ha
      · refine Or.inr ⟨h, ?_⟩
        simp only [decide_eq_true_eq, beq_iff_eq]
        rintro ⟨x, hx, hxe⟩
        exact ha (hxe ▸ hx)

lemma listCharLe_total : ∀ a b : List Char, listCharLe a b = true ∨ listCharLe b a = true
  | [], _ => Or.inl rfl
  | _ :: _, [] => Or.inr rfl
  | a :: as, b :: bs => by
    rcases Nat.lt_trichotomy a.toNat b.toNat with h | h | h
    · left; simp [listCharLe, h]
    · have h1 : ¬ a.toNat < b.toNat := by omega
      have h2 : ¬ b.toNat < a.toNat := by omega
      rcases listCharLe_total as bs with ih | ih
      · left; simp [listCharLe, h1, h2, ih]
      · right; simp [listCharLe, h1, h2, ih]
    · right; simp [listCharLe, h]

lemma listCharLe_cons_iff (a b : Char) (as bs : List Char) :
    listCharLe (a :: as) (b :: bs) = true ↔
      a.toNat < b.toNat ∨ (a.toNat = b.toNat ∧ listCharLe as bs = true) := by
  simp only [listCharLe]
  by_cases h1 : a.toNat < b.toNat
  · simp [h1]
  · by_cases h2 : b.toNat < a.toNat
    · simp only [if_neg h1, if_pos h2]
      constructor
      · intro h; exact absurd h (by simp)
      · rintro (h | ⟨h, _⟩) <;> omega
    · have he : a.toNat = b.toNat := by omega
      simp [h1, h2, he]

lemma listCharLe_trans : ∀ a b c : List Char,
    listCharLe a b = true → listCharLe b c = true → listCharLe a c = true
  | [], _, _ => by intro _ _; rfl
  | _ :: _, [], _ => by intro h _; simp [listCharLe] at h
  | _ :: _, _ :: _, [] => by intro _ h; simp [listCharLe] at h
  | a :: as, b :: bs, c :: cs => by
    intro h1 h2
    rw [listCharLe_cons_iff] at h1 h2 ⊢
    rcases h1 with h1 | ⟨h1e, h1r⟩ <;> rcases h2 with h2 | ⟨h2e, h2r⟩
    · exact Or.inl (by omega)
    · exact Or.inl (by omega)
    · exact Or.inl (by omega)
    · exact Or.inr ⟨by omega, listCharLe_trans as bs cs h1r h2r⟩

lemma strLe_total (a b : String) : strLe a b = true ∨ strLe b a = true :=
  listCharLe_total a.data b.data

lemma strLe_trans {a b c : String} (h1 : strLe a b = true) (h2 : strLe b c = true) :
    strLe a c = true :=
  listCharLe_trans a.data b.data c.data h1 h2

/-- A universally true relation is pairwise on any list. -/
lemma pairwise_of_rel_everywhere {α : Type} {R : α → α → Prop} (h : ∀ a b, R a b) :
    ∀ l : List α, List.Pairwise R l
  | [] => List.Pairwise.nil
  | a :: l => List.Pairwise.cons (fun b _ => h a b) (pairwise_of_rel_everywhere h l)

lemma sorted_sortRowsByStrKey (cols : List String) (key : String) (rows : List (List Val)) :
    List.Pairwise
      (fun a b => strLe (cellAt cols a key).toStr (cellAt cols b key).toStr = true)
      (sortRowsByStrKey cols key rows) := by
  haveI : IsTotal (List Val)
      (fun a b => strLe (cellAt cols a key).toStr (cellAt cols b key).toStr = true) :=
    ⟨fun a b => strLe_total _ _⟩
  haveI : IsTrans (List Val)
      (fun a b => strLe (cellAt cols a key).toStr (cellAt cols b key).toStr = true) :=
    ⟨fun _ _ _ h1 h2 => strLe_trans h1 h2⟩
  exact List.sorted_insertionSort _ rows

lemma perm_sortRowsByStrKey (cols : List String) (key : String) (rows : List (List Val)) :
    List.Perm (sortRowsByStrKey cols key rows) rows :=
  List.perm_insertionSort _ rows

lemma perm_sortRowsByIntKey (cols : List String) (key : String) (rows : List (List Val)) :
    List.Perm (sortRowsByIntKey cols key rows) rows :=
  List.perm_insertionSort _ rows

/-! ### C1 — idempotent append -/

/-- C1: appending a row whose (truthy) date is already persisted leaves the
stored table exactly as it was — in particular the per-date row counts and
all recorded values are unchanged, so no duplicate appears and no null ever
overwrites a stored value. -/
theorem c1_append_row_idempotent (f : Frame) (row : Rowd)
    (hne : f.rows ≠ []) (hcol : "date" ∈ f.cols)
    (htr : ((row.lookup "date").getD (.str "")).truthy = true)
    (hmem : ((row.lookup "date").getD (.str "")).toStr ∈ dateStrs f) :
    append_row f row = f ∧ ∀ d : String, dateCount (append_row f row) d = dateCount f d := by
  have h : append_row f row = f := by
    simp only [append_row]
    exact if_pos ⟨hne, hcol, htr, hmem⟩
  exact ⟨h, fun d => by rw [h]⟩

/-- Witness for C1: a concrete one-row series absorbs a second append of
the same date without change. -/
theorem c1_witness :
    append_row ⟨["date", "rate"], [[.str "2026-01-01", .int 5]]⟩
        [("date", Val.str "2026-01-01"), ("rate", Val.int 7)] =
      ⟨["date", "rate"], [[.str "2026-01-01", .int 5]]⟩ :=
  (c1_append_row_idempotent _ _ (by decide) (by decide) (by decide) (by decide)).1

/-! ### C9 — date-less rows bypass the duplicate check -/

/-- C9: a row whose date value is missing or falsy (absent key, empty
string, null) is inserted unconditionally, so repeated appends accumulate
one new stored row each time. -/
theorem c9_dateless_append_unconditional (f : Frame) (row : Rowd)
    (h : ((row.lookup "date").getD (.str "")).truthy = false) :
    append_row f row = f.concat (frameOfRow row) ∧
    (append_row f row).rows.length = f.rows.length + 1 ∧
    (append_row (append_row f row) row).rows.length = f.rows.length + 2 := by
  have hguard : ∀ g : Frame, append_row g row = g.concat (frameOfRow row) := by
    intro g
    have hnot : ¬ (g.rows ≠ [] ∧ "date" ∈ g.cols ∧
        ((row.lookup "date").getD (.str "")).truthy = true ∧
        ((row.lookup "date").getD (.str "")).toStr ∈ dateStrs g) := by
      rintro ⟨_, _, htr, _⟩
      rw [h] at htr
      exact Bool.false_ne_true htr
    simp only [append_row]
    exact if_neg hnot
  have hlen : ∀ g : Frame, (g.concat (frameOfRow row)).rows.length = g.rows.length + 1 := by
    intro g
    simp [Frame.concat, frameOfRow]
  refine ⟨hguard f, ?_, ?_⟩
  · rw [hguard f]; exact hlen f
  · rw [hguard (append_row f row), hlen, hguard f, hlen]

/-- Witness for C9: appending the date-less row `{v: 1}` twice to a
one-row table yields three stored rows. -/
theorem c9_witness :
    (append_row (append_row ⟨["date", "v"], [[.str "2026-01-01", .int 2]]⟩
        [("v", Val.int 1)]) [("v", Val.int 1)]).rows.length = 3 := by
  have h := c9_dateless_append_unconditional ⟨["date", "v"], [[.str "2026-01-01", .int 2]]⟩
    [("v", Val.int 1)] (by decide)
  simpa using h.2.2

/-! ### C2 — sort invariant -/

/-- Counterexample to C2 as stated: `append_row` (the single-row mutation)
inserts at the end without re-sorting, so appending an earlier date to a
sorted one-row table leaves the table unsorted by date. -/
theorem c2_counterexample :
    ¬ sortedByKeyCol (append_row ⟨["date", "rate"], [[.str "2026-01-02", .int 1]]⟩
        [("date", Val.str "2026-01-01"), ("rate", Val.int 2)]) "date" := by
  decide

lemma listCharLe_refl : ∀ l : List Char, listCharLe l l = true
  | [] => rfl
  | a :: l => by simp [listCharLe, listCharLe_refl l]

lemma strLe_refl (s : String) : strLe s s = true := listCharLe_refl s.data

/-- The in-place update performed by `_upsert_esaver` never changes the
rendered `promo_month` key of any row. -/
lemma updateFirstMatch_keys (cols : List String) (es : Rowd) (hcol : "promo_month" ∈ cols) :
    ∀ l : List (List Val),
      (updateFirstMatch cols es (((es.lookup "promo_month").getD .null).toStr) l).map
          (fun row => (cellAt cols row "promo_month").toStr) =
        l.map (fun row => (cellAt cols row "promo_month").toStr)
  | [] => rfl
  | row :: rest => by
    by_cases h : (cellAt cols row "promo_month").toStr =
        ((es.lookup "promo_month").getD .null).toStr
    · have hkey : (cellAt cols (updatedRow cols es row) "promo_month").toStr =
          (cellAt cols row "promo_month").toStr := by
        unfold updatedRow
        rw [cellAt_map_cols, if_pos hcol]
        cases hes : es.lookup "promo_month" with
        | none => rfl
        | some v =>
          by_cases hv : v = Val.null
          · simp [hv]
          · simp only [if_neg hv]
            rw [h, hes]
            rfl
      simp [updateFirstMatch, h, hkey]
    · simp [updateFirstMatch, h, updateFirstMatch_keys cols es hcol rest]

/-- C2 amended: the sort invariant holds for the batched append
(`append_rows` re-sorts by date whenever it inserts) and for the upsert
(`_upsert_esaver` re-sorts on insert and leaves keys untouched on update),
but not for the single-row `append_row`, which appends at the end without
re-sorting (see the counterexample). -/
theorem c2_amended (f : Frame) (rows : List Rowd) (g : Frame) (es : Rowd)
    (h1 : newBatchRows f rows ≠ []) (h2 : sortedByKeyCol g "promo_month") :
    sortedByKeyCol (append_rows f rows) "date" ∧
    sortedByKeyCol (upsert_esaver g es) "promo_month" := by
  constructor
  · have hrows : ¬ rows = [] := by
      intro he
      subst he
      exact h1 rfl
    simp only [append_rows]
    rw [if_neg hrows, if_neg h1]
    by_cases hdc : "date" ∈ (f.concat (frameOfRows (newBatchRows f rows))).cols
    · rw [if_pos hdc]
      exact sorted_sortRowsByStrKey _ "date" _
    · rw [if_neg hdc]
      exact pairwise_of_rel_everywhere
        (fun a b => by rw [cellAt_not_mem hdc a, cellAt_not_mem hdc b]; exact strLe_refl _) _
  · simp only [upsert_esaver]
    split
    next hb =>
      have hkeys := updateFirstMatch_keys g.cols es hb.2.1 g.rows
      have h2m : List.Pairwise (fun x y => strLe x y = true)
          (g.rows.map (fun row => (cellAt g.cols row "promo_month").toStr)) :=
        List.pairwise_map.mpr h2
      rw [← hkeys] at h2m
      exact List.pairwise_map.mp h2m
    next hb =>
      exact sorted_sortRowsByStrKey _ "promo_month" _

/-- Witness for the amended C2: a batch inserted out of order comes back
date-sorted, and an upsert onto a sorted promotion table stays sorted. -/
theorem c2_witness :
    sortedByKeyCol (append_rows ⟨["date", "v"], [[.str "2026-01-03", .int 1]]⟩
        [[("date", Val.str "2026-01-01"), ("v", Val.int 2)],
         [("date", Val.str "2026-01-02"), ("v", Val.int 3)]]) "date" ∧
    sortedByKeyCol (upsert_esaver
        ⟨["promo_month", "r"], [[.str "2026-01", .int 1], [.str "2026-03", .int 2]]⟩
        [("promo_month", Val.str "2026-01"), ("r", Val.int 7)]) "promo_month" :=
  c2_amended _ _ _ _ (by decide) (by decide)

/-! ### C3 — upsert preserves unspecified fields -/

/-- `updateFirstMatch` rewrites exactly the first matching row, leaving
every other row untouched. -/
lemma updateFirstMatch_spec (cols : List String) (es : Rowd) (t : String) :
    ∀ l : List (List Val),
      l.any (fun row => (cellAt cols row "promo_month").toStr = t) = true →
      ∃ i, i < l.length ∧
        (cellAt cols (l.getD i []) "promo_month").toStr = t ∧
        (∀ j, j ≠ i → (updateFirstMatch cols es t l)[j]? = l[j]?) ∧
        (updateFirstMatch cols es t l)[i]? = some (updatedRow cols es (l.getD i []))
  | [], hany => by simp at hany
  | row :: rest, hany => by
    by_cases h : (cellAt cols row "promo_month").toStr = t
    · refine ⟨0, by simp, by simpa using h, ?_, ?_⟩
      · intro j hj
        match j, hj with
        | j + 1, _ => simp [updateFirstMatch, h]
      · simp [updateFirstMatch, h]
    · have hrest : rest.any (fun r0 => (cellAt cols r0 "promo_month").toStr = t) = true := by
        simpa [h] using hany
      obtain ⟨i, hi, hkey, hframe, hupd⟩ := updateFirstMatch_spec cols es t rest hrest
      refine ⟨i + 1, by simpa using hi, by simpa using hkey, ?_, ?_⟩
      · intro j hj
        match j with
        | 0 => simp [updateFirstMatch, h]
        | j + 1 =>
          have : j ≠ i := fun he => hj (by rw [he])
          simpa [updateFirstMatch, h] using hframe j this
      · simpa [updateFirstMatch, h] using hupd

/-- C3: when the incoming promotion row matches an existing `promo_month`,
the upsert keeps the schema and row count, leaves every other row
untouched, and in the matched row updates exactly the columns the incoming
row has non-null values for, preserving all other cells. -/
theorem c3_upsert_preserves_unspecified (g : Frame) (es : Rowd)
    (hne : g.rows ≠ []) (hcol : "promo_month" ∈ g.cols)
    (hmatch : g.rows.any (fun row =>
        (cellAt g.cols row "promo_month").toStr =
          ((es.lookup "promo_month").getD .null).toStr) = true) :
    (upsert_esaver g es).cols = g.cols ∧
    (upsert_esaver g es).rows.length = g.rows.length ∧
    ∃ i, i < g.rows.length ∧
      (∀ j, j ≠ i → (upsert_esaver g es).rows[j]? = g.rows[j]?) ∧
      ∀ c ∈ g.cols,
        cellAt g.cols ((upsert_esaver g es).rows.getD i []) c =
          match es.lookup c with
          | some v => if v = Val.null then cellAt g.cols (g.rows.getD i []) c else v
          | none => cellAt g.cols (g.rows.getD i []) c := by
  have hout : upsert_esaver g es =
      ⟨g.cols, updateFirstMatch g.cols es (((es.lookup "promo_month").getD .null).toStr) g.rows⟩ := by
    simp only [upsert_esaver]
    exact if_pos ⟨hne, hcol, hmatch⟩
  obtain ⟨i, hi, _, hframe, hupd⟩ :=
    updateFirstMatch_spec g.cols es (((es.lookup "promo_month").getD .null).toStr) g.rows hmatch
  have hlen : (updateFirstMatch g.cols es
      (((es.lookup "promo_month").getD .null).toStr) g.rows).length = g.rows.length := by
    have hk := updateFirstMatch_keys g.cols es hcol g.rows
    have := congrArg List.length hk
    simpa using this
  refine ⟨by rw [hout], by rw [hout]; exact hlen, i, hi, ?_, ?_⟩
  · intro j hj
    rw [hout]
    exact hframe j hj
  · intro c hc
    have hgd : (upsert_esaver g es).rows.getD i [] =
        updatedRow g.cols es (g.rows.getD i []) := by
      rw [hout]
      have : (updateFirstMatch g.cols es
          (((es.lookup "promo_month").getD .null).toStr) g.rows).getD i [] =
          ((updateFirstMatch g.cols es
            (((es.lookup "promo_month").getD .null).toStr) g.rows)[i]?).getD [] := by
        simp [List.getD_eq_getElem?_getD]
      rw [this, hupd]
      rfl
    rw [hgd]
    unfold updatedRow
    rw [cellAt_map_cols, if_pos hc]

/-- Witness for C3: the spec's example — upserting
`{promo_month: 2026-02, field_a: 5}` onto `{promo_month: 2026-02,
field_a: 3, field_b: 9}` yields `{field_a: 5, field_b: 9}`. -/
theorem c3_witness :
    (upsert_esaver ⟨["promo_month", "field_a", "field_b"], [[.str "2026-02", .int 3, .int 9]]⟩
        [("promo_month", Val.str "2026-02"), ("field_a", Val.int 5)]).cols =
      ["promo_month", "field_a", "field_b"] ∧
    (upsert_esaver ⟨["promo_month", "field_a", "field_b"], [[.str "2026-02", .int 3, .int 9]]⟩
        [("promo_month", Val.str "2026-02"), ("field_a", Val.int 5)]).rows.length = 1 ∧
    (upsert_esaver ⟨["promo_month", "field_a", "field_b"], [[.str "2026-02", .int 3, .int 9]]⟩
        [("promo_month", Val.str "2026-02"), ("field_a", Val.int 5)]).rows =
      [[.str "2026-02", .int 5, .int 9]] :=
  have h := c3_upsert_preserves_unspecified
    ⟨["promo_month", "field_a", "field_b"], [[.str "2026-02", .int 3, .int 9]]⟩
    [("promo_month", Val.str "2026-02"), ("field_a", Val.int 5)]
    (by decide) (by decide) (by decide)
  ⟨h.1, h.2.1, by decide⟩

/-! ### C4 — change over a window, with clamping fallback -/

lemma mem_of_getLastOpt {α : Type} {l : List α} {a : α} (h : l.getLast? = some a) : a ∈ l := by
  obtain ⟨hne, he⟩ := List.mem_getLast?_eq_getLast (Option.mem_def.mpr h)
  rw [he]
  exact List.getLast_mem hne

lemma mem_of_headOpt {α : Type} {l : List α} {a : α} (h : l.head? = some a) : a ∈ l := by
  cases l with
  | nil => simp at h
  | cons x t =>
    simp only [List.head?_cons, Option.some.injEq] at h
    rw [← h]
    exact List.mem_cons_self x t

lemma getLastOpt_of_ne_nil {α : Type} {l : List α} (h : l ≠ []) : ∃ a, l.getLast? = some a :=
  ⟨l.getLast h, List.getLast?_eq_getLast_of_ne_nil h⟩

lemma headOpt_of_ne_nil {α : Type} {l : List α} (h : l ≠ []) : ∃ a, l.head? = some a := by
  cases l with
  | nil => exact absurd rfl h
  | cons x t => exact ⟨x, rfl⟩

/-- An integer-or-null cell that is not null is an integer. -/
lemma intOrNull_ne_null_int {v : Val} (h1 : v.intOrNull = true) (h2 : v ≠ .null) :
    ∃ n, v = .int n := by
  cases v with
  | int n => exact ⟨n, rfl⟩
  | null => exact absurd rfl h2
  | str s => simp [Val.intOrNull] at h1

/-- Every non-null observation comes from the stored rows and has a
non-null cell in the observed column. -/
lemma mem_nonNullObs {f : Frame} {column : String} {row : List Val}
    (h : row ∈ nonNullObs f column) :
    row ∈ f.rows ∧ cellAt f.cols row column ≠ .null := by
  unfold nonNullObs at h
  obtain ⟨hm, hp⟩ := List.mem_filter.mp h
  refine ⟨?_, by simpa using hp⟩
  exact ((perm_sortRowsByIntKey f.cols "date" f.rows).mem_iff).mp hm

/-- C4: with well-formed (integer-or-null) data in the observed column,
`get_change` is absent exactly when fewer than two non-null observations
exist; with at least two it returns latest minus the value at the cutoff,
where the cutoff value is the last observation on or before `now - days`,
falling back to the earliest observation when none lies on or before the
cutoff. -/
theorem c4_change_window_fallback (f : Frame) (column : String) (days now : Int)
    (hne : f.rows ≠ []) (hd : "date" ∈ f.cols) (hc : column ∈ f.cols)
    (hval : ∀ row ∈ f.rows, (cellAt f.cols row column).intOrNull = true) :
    ((nonNullObs f column).length < 2 → get_change f column days now = none) ∧
    (2 ≤ (nonNullObs f column).length →
      ∃ a b : Int,
        cellAt f.cols ((nonNullObs f column).getLast?.getD []) column = .int a ∧
        cellAt f.cols
          ((if (nonNullObs f column).filter
                (fun row => (cellAt f.cols row "date").toIntD ≤ now - days) = []
            then (nonNullObs f column).head?
            else ((nonNullObs f column).filter
                (fun row => (cellAt f.cols row "date").toIntD ≤ now - days)).getLast?).getD [])
          column = .int b ∧
        get_change f column days now = some (a - b)) := by
  have hguard : ¬ (f.rows = [] ∨ "date" ∉ f.cols ∨ column ∉ f.cols) := by
    push_neg
    exact ⟨hne, hd, hc⟩
  constructor
  · intro hlen
    simp only [get_change]
    rw [if_neg hguard, if_pos hlen]
  · intro hlen
    have hlt : ¬ (nonNullObs f column).length < 2 := by omega
    have hobs_ne : nonNullObs f column ≠ [] := by
      intro he
      rw [he] at hlen
      simp at hlen
    obtain ⟨last, hlast⟩ := getLastOpt_of_ne_nil hobs_ne
    have hlast_mem := mem_of_getLastOpt hlast
    obtain ⟨hlast_rows, hlast_nn⟩ := mem_nonNullObs hlast_mem
    obtain ⟨a, ha⟩ := intOrNull_ne_null_int (hval last hlast_rows) hlast_nn
    -- the cutoff-side row
    set past := (nonNullObs f column).filter
      (fun row => (cellAt f.cols row "date").toIntD ≤ now - days) with hpast
    have hpv : ∃ pv, (if past = [] then (nonNullObs f column).head? else past.getLast?) = some pv ∧
        pv ∈ nonNullObs f column := by
      by_cases hp : past = []
      · obtain ⟨h0, hh⟩ := headOpt_of_ne_nil hobs_ne
        exact ⟨h0, by rw [if_pos hp]; exact hh, mem_of_headOpt hh⟩
      · obtain ⟨x, hx⟩ := getLastOpt_of_ne_nil hp
        refine ⟨x, by rw [if_neg hp]; exact hx, ?_⟩
        have := mem_of_getLastOpt hx
        rw [hpast] at this
        exact (List.mem_filter.mp this).1
    obtain ⟨pv, hpveq, hpv_mem⟩ := hpv
    obtain ⟨hpv_rows, hpv_nn⟩ := mem_nonNullObs hpv_mem
    obtain ⟨b, hb⟩ := intOrNull_ne_null_int (hval pv hpv_rows) hpv_nn
    refine ⟨a, b, ?_, ?_, ?_⟩
    · rw [hlast]
      exact ha
    · rw [hpveq]
      exact hb
    · simp only [get_change]
      rw [if_neg hguard, if_neg hlt]
      rw [← hpast]
      have e1 : cellAt f.cols ((nonNullObs f column).getLast?.getD []) column = Val.int a := by
        rw [hlast]; exact ha
      have e2 : cellAt f.cols
          ((if past = [] then (nonNullObs f column).head? else past.getLast?).getD [])
          column = Val.int b := by
        rw [hpveq]; exact hb
      by_cases hp : past = []
      · rw [if_pos hp] at e2 ⊢
        rw [e1, e2]
        rfl
      · rw [if_neg hp] at e2 ⊢
        rw [e1, e2]
        rfl

/-- Witness for C4: the spec's example — three observations on days 0, 5,
10 with values 1, 4, 9, queried with a 30-day window at day 10, give
latest minus earliest (`9 - 1 = 8`), not absent. -/
theorem c4_witness :
    2 ≤ (nonNullObs ⟨["date", "v"], [[.int 0, .int 1], [.int 5, .int 4], [.int 10, .int 9]]⟩
        "v").length ∧
    get_change ⟨["date", "v"], [[.int 0, .int 1], [.int 5, .int 4], [.int 10, .int 9]]⟩
      "v" 30 10 = some 8 := by
  refine ⟨by decide, ?_⟩
  obtain ⟨a, b, ha, hb, heq⟩ :=
    (c4_change_window_fallback
      ⟨["date", "v"], [[.int 0, .int 1], [.int 5, .int 4], [.int 10, .int 9]]⟩
      "v" 30 10 (by decide) (by decide) (by decide) (by decide)).2 (by decide)
  have ha9 : Val.int 9 = Val.int a := by
    rw [← ha]
    decide
  have hb1 : Val.int 1 = Val.int b := by
    rw [← hb]
    decide
  have ha9n : a = 9 := by injection ha9 with h; omega
  have hb1n : b = 1 := by injection hb1 with h; omega
  rw [heq, ha9n, hb1n]
  norm_num

/-! ### C5 — staleness reporting -/

/-- `staleEntry` only ever reports entries under its own series name. -/
lemma staleEntry_name {f : Frame} {n m l : String} {g th td : Int}
    (h : staleEntry f n th td = some (m, l, g)) : m = n := by
  unfold staleEntry at h
  split at h
  · simp only [Option.some.injEq, Prod.mk.injEq] at h
    exact h.1.symm
  · split at h
    · simp only [Option.some.injEq, Prod.mk.injEq] at h
      exact h.1.symm
    · exact absurd h (by simp)

/-- C5: for every checked series, an empty table (or one without a date
column) is always reported as `(name, "no data", -1)` whatever the
threshold; a table with data is reported if and only if the day gap
between now and its most recent date strictly exceeds the threshold. -/
theorem c5_staleness (load : String → Frame) (thresholdDays today : Int) (name : String)
    (hmem : name ∈ csvs_to_check) :
    ((load name).rows = [] ∨ "date" ∉ (load name).cols →
      (name, "no data", -1) ∈ check_staleness load thresholdDays today) ∧
    ((load name).rows ≠ [] → "date" ∈ (load name).cols →
      ((∃ l g, (name, l, g) ∈ check_staleness load thresholdDays today) ↔
        thresholdDays < today - lastDateOf (load name))) := by
  constructor
  · intro hcond
    have hse : staleEntry (load name) name thresholdDays today = some (name, "no data", -1) := by
      unfold staleEntry
      exact if_pos hcond
    exact List.mem_filterMap.mpr ⟨name, hmem, hse⟩
  · intro hne hd
    have hcond : ¬ ((load name).rows = [] ∨ "date" ∉ (load name).cols) := by
      push_neg
      exact ⟨hne, hd⟩
    constructor
    · rintro ⟨l, g, hlg⟩
      obtain ⟨n2, _, hse⟩ := List.mem_filterMap.mp hlg
      have heq : name = n2 := staleEntry_name hse
      rw [← heq] at hse
      unfold staleEntry at hse
      rw [if_neg hcond] at hse
      by_cases hgap : today - lastDateOf (load name) > thresholdDays
      · exact hgap
      · rw [if_neg hgap] at hse
        exact absurd hse (by simp)
    · intro hgap
      refine ⟨toString (lastDateOf (load name)), today - lastDateOf (load name),
        List.mem_filterMap.mpr ⟨name, hmem, ?_⟩⟩
      unfold staleEntry
      rw [if_neg hcond]
      exact if_pos hgap

/-- Witness for C5: with every series empty except `fed_rates` (one row on
day 0), at threshold 3 on day 10, the empty `hibor_daily` is reported with
the "no data" sentinel and `fed_rates` is reported as stale. -/
theorem c5_witness :
    ("hibor_daily", "no data", -1) ∈ check_staleness
      (fun n => if n = "fed_rates" then ⟨["date", "r"], [[.int 0, .int 1]]⟩ else Frame.empty)
      3 10 ∧
    ∃ l g, ("fed_rates", l, g) ∈ check_staleness
      (fun n => if n = "fed_rates" then ⟨["date", "r"], [[.int 0, .int 1]]⟩ else Frame.empty)
      3 10 := by
  constructor
  · exact (c5_staleness
      (fun n => if n = "fed_rates" then ⟨["date", "r"], [[.int 0, .int 1]]⟩ else Frame.empty)
      3 10 "hibor_daily" (by decide)).1 (by decide)
  · exact ((c5_staleness
      (fun n => if n = "fed_rates" then ⟨["date", "r"], [[.int 0, .int 1]]⟩ else Frame.empty)
      3 10 "fed_rates" (by decide)).2 (by decide) (by decide)).mpr (by decide)

/-! ### C6 — health tracker: reset on success, alerts by threshold -/

lemma lookup_append_right (st : HealthState) (source : String)
    (h : st.lookup source = none) (l2 : HealthState) :
    (st ++ l2).lookup source = l2.lookup source := by
  induction st with
  | nil => rfl
  | cons p rest ih =>
    cases p with
    | mk k v =>
      by_cases hk : source = k
      · subst hk
        simp [List.lookup] at h
      · have hb : (source == k) = false := beq_eq_false_iff_ne.mpr hk
        simp only [List.cons_append, List.lookup, hb] at h ⊢
        exact ih h

/-- The state `record_fetch_result` works on always contains the source,
with the prior info (or the zero default when it was absent). -/
lemma st1_lookup_eq (state : HealthState) (source : String) (d : HealthInfo) :
    (if state.lookup source = none then state ++ [(source, d)] else state).lookup source =
      some ((state.lookup source).getD d) := by
  by_cases hl : state.lookup source = none
  · rw [if_pos hl, lookup_append_right state source hl, hl]
    have hb : (source == source) = true := beq_self_eq_true source
    simp [List.lookup, hb]
  · rw [if_neg hl]
    cases hs : state.lookup source with
    | none => exact absurd hs hl
    | some i => simp

lemma updEntry_hit (source : String) (x : HealthInfo) (k : String) (v : HealthInfo)
    (h : k = source) : updEntry source x (k, v) = (k, x) := if_pos h

lemma updEntry_miss (source : String) (x : HealthInfo) (k : String) (v : HealthInfo)
    (h : ¬ k = source) : updEntry source x (k, v) = (k, v) := if_neg h

lemma lookup_map_set (st : HealthState) (source : String) (x : HealthInfo) :
    (st.map (updEntry source x)).lookup source =
      if (st.lookup source).isSome then some x else none := by
  induction st with
  | nil => simp
  | cons p rest ih =>
    obtain ⟨k, v⟩ := p
    by_cases hk : k = source
    · subst hk
      have hb : (k == k) = true := beq_self_eq_true k
      rw [List.map_cons, updEntry_hit k x k v rfl]
      simp [List.lookup, hb]
    · have hb : (source == k) = false := beq_eq_false_iff_ne.mpr (fun he => hk he.symm)
      rw [List.map_cons, updEntry_miss source x k v hk]
      simp only [List.lookup, hb]
      exact ih

lemma mem_map_update {st : HealthState} {source : String} {x : HealthInfo}
    {p : String × HealthInfo}
    (h : p ∈ st.map (updEntry source x)) (hk : p.1 = source) :
    p.2 = x := by
  obtain ⟨q, hq, he⟩ := List.mem_map.mp h
  obtain ⟨qk, qv⟩ := q
  by_cases h1 : qk = source
  · rw [updEntry_hit source x qk qv h1] at he
    rw [← he]
  · rw [updEntry_miss source x qk qv h1] at he
    rw [← he] at hk
    exact absurd hk h1

/-- After a successful `record_fetch_result`, every entry of the saved
state carrying the recorded source has its counter reset to zero. -/
lemma record_success_resets (st : HealthState) (source now : String)
    (p : String × HealthInfo)
    (hp : p ∈ (record_fetch_result st source true now).1) (hk : p.1 = source) :
    p.2.consecutive_failures = 0 := by
  simp only [record_fetch_result] at hp
  rw [mem_map_update hp hk]
  rfl

/-- C6: `record_fetch_result` resets the counter to 0 and stamps
`last_success` on success, increments the counter and stamps `last_failure`
on failure, returns the post-update counter, and preserves every other
source's entry; `get_alerts` returns exactly the sources with
`consecutive_failures ≥ threshold`; and three recorded failures followed by
one success leave the counter at 0 and the source excluded from
`get_alerts 3`. -/
theorem c6_health_tracker (state : HealthState) (source now : String) (th : Nat) (s : String) :
    (record_fetch_result state source true now).2 = 0 ∧
    (∃ info, (record_fetch_result state source true now).1.lookup source = some info ∧
      info.consecutive_failures = 0 ∧ info.last_success = some now) ∧
    (record_fetch_result state source false now).2 =
      ((state.lookup source).getD ⟨0, none, none⟩).consecutive_failures + 1 ∧
    (∃ info, (record_fetch_result state source false now).1.lookup source = some info ∧
      info.consecutive_failures =
        ((state.lookup source).getD ⟨0, none, none⟩).consecutive_failures + 1 ∧
      info.last_failure = some now) ∧
    (∀ b : Bool, ∀ p ∈ state, p.1 ≠ source → p ∈ (record_fetch_result state source b now).1) ∧
    (s ∈ get_alerts state th ↔ ∃ p, p ∈ state ∧ p.1 = s ∧ th ≤ p.2.consecutive_failures) ∧
    (∀ n1 n2 n3 n4 : String,
      (record_fetch_result (record_fetch_result (record_fetch_result
        (record_fetch_result state source false n1).1 source false n2).1
          source false n3).1 source true n4).2 = 0 ∧
      source ∉ get_alerts (record_fetch_result (record_fetch_result (record_fetch_result
        (record_fetch_result state source false n1).1 source false n2).1
          source false n3).1 source true n4).1 3) := by
  refine ⟨rfl, ?_, ?_, ?_, ?_, ?_, ?_⟩
  · -- success: lookup in the saved state
    simp only [record_fetch_result]
    rw [lookup_map_set, st1_lookup_eq]
    refine ⟨{ (state.lookup source).getD ⟨0, none, none⟩ with
      consecutive_failures := 0, last_success := some now }, ?_, rfl, rfl⟩
    simp
  · -- failure: returned counter
    show (((if state.lookup source = none then state ++ [(source, ⟨0, none, none⟩)]
        else state).lookup source).getD ⟨0, none, none⟩).consecutive_failures + 1 = _
    rw [st1_lookup_eq]
    rfl
  · -- failure: lookup in the saved state
    simp only [record_fetch_result]
    rw [lookup_map_set, st1_lookup_eq]
    refine ⟨{ (state.lookup source).getD ⟨0, none, none⟩ with
      consecutive_failures :=
        ((state.lookup source).getD ⟨0, none, none⟩).consecutive_failures + 1,
      last_failure := some now }, ?_, rfl, rfl⟩
    simp
  · -- frame: other sources' entries survive untouched
    intro b p hp hne
    simp only [record_fetch_result]
    obtain ⟨pk, pv⟩ := p
    refine List.mem_map.mpr ⟨(pk, pv), ?_, updEntry_miss source _ pk pv (by simpa using hne)⟩
    by_cases hl : state.lookup source = none
    · rw [if_pos hl]
      exact List.mem_append_left _ hp
    · rw [if_neg hl]
      exact hp
  · -- alerts characterization
    constructor
    · intro hs
      obtain ⟨p, hp, hps⟩ := List.mem_map.mp hs
      obtain ⟨hpmem, hpf⟩ := List.mem_filter.mp hp
      exact ⟨p, hpmem, hps, by simpa using hpf⟩
    · rintro ⟨p, hp, hps, hth⟩
      exact List.mem_map.mpr ⟨p, List.mem_filter.mpr ⟨hp, by simpa using hth⟩, hps⟩
  · -- scenario: three failures then one success
    intro n1 n2 n3 n4
    refine ⟨rfl, ?_⟩
    intro hmem
    obtain ⟨p, hp, hps⟩ := List.mem_map.mp hmem
    obtain ⟨hpmem, hpf⟩ := List.mem_filter.mp hp
    have h0 := record_success_resets _ source n4 p hpmem hps
    rw [h0] at hpf
    simp at hpf

/-- Witness for C6 at a concrete state: recording a success for a source
with two prior consecutive failures returns 0. -/
theorem c6_witness :
    (record_fetch_result [("src", ⟨2, none, some "t0"⟩)] "src" true "t1").2 = 0 :=
  (c6_health_tracker [("src", ⟨2, none, some "t0"⟩)] "src" "t1" 3 "src").1

/-! ### C7 — batch dedup consults only the persisted snapshot -/

/-- A successful assoc lookup means the key occurs among the row's keys. -/
lemma lookup_some_key {r : Rowd} {a : String} {v : Val} (h : r.lookup a = some v) :
    a ∈ r.map Prod.fst := by
  induction r with
  | nil => simp [List.lookup] at h
  | cons p rest ih =>
    obtain ⟨k, w⟩ := p
    by_cases hk : a = k
    · subst hk
      exact List.mem_cons_self _ _
    · have hb : (a == k) = false := beq_eq_false_iff_ne.mpr hk
      simp only [List.lookup, hb] at h
      exact List.mem_cons_of_mem _ (ih h)

lemma foldl_unionCols_acc (k : String) :
    ∀ (rows2 : List Rowd) (acc : List String), k ∈ acc →
      k ∈ rows2.foldl (fun a row => unionCols a (row.map Prod.fst)) acc
  | [], _, h => h
  | _ :: rest, _, h =>
    foldl_unionCols_acc k rest _ (mem_unionCols.mpr (Or.inl h))

lemma mem_foldl_unionCols (k : String) :
    ∀ (rows2 : List Rowd) (r : Rowd), r ∈ rows2 → k ∈ r.map Prod.fst →
      ∀ acc, k ∈ rows2.foldl (fun a row => unionCols a (row.map Prod.fst)) acc
  | [], _, hr, _, _ => absurd hr (List.not_mem_nil _)
  | r0 :: rest, r, hr, hk, acc => by
    rcases List.mem_cons.mp hr with he | hm
    · subst he
      exact foldl_unionCols_acc k rest _ (mem_unionCols.mpr (Or.inr hk))
    · exact mem_foldl_unionCols k rest r hm hk _

/-- A table whose snapshot does not contain `d` stores no row rendering its
date as `d` (with `d` distinct from the null rendering). -/
lemma dateCount_zero (f : Frame) (d : String) (hd2 : d ≠ "nan")
    (hmem : d ∉ snapshotDates f) : dateCount f d = 0 := by
  unfold dateCount
  rw [← List.countP_eq_length_filter]
  rw [List.countP_eq_zero]
  intro row hrow hpred
  simp only [decide_eq_true_eq] at hpred
  by_cases hne : f.rows = []
  · rw [hne] at hrow
    exact absurd hrow (List.not_mem_nil _)
  · by_cases hcol : "date" ∈ f.cols
    · have hsnap : snapshotDates f = dateStrs f := by
        unfold snapshotDates
        exact if_pos ⟨hne, hcol⟩
      refine hmem ?_
      rw [hsnap]
      exact hpred ▸ List.mem_map_of_mem _ hrow
    · rw [cellAt_not_mem hcol row] at hpred
      exact hd2 hpred.symm

/-- Counting rows by rendered date in the concatenation of a `d`-free table
with a freshly built batch frame counts exactly the batch rows whose
incoming date renders as `d`. -/
lemma dateCount_concat_frameOfRows (f : Frame) (rows2 : List Rowd) (d : String)
    (hd1 : d ≠ "") (hd2 : d ≠ "nan") (hzero : dateCount f d = 0) :
    dateCount (f.concat (frameOfRows rows2)) d =
      List.countP (fun row => rowDateStr row = d) rows2 := by
  have hzero2 : ∀ row ∈ f.rows, ¬ (cellAt f.cols row "date").toStr = d := by
    intro row hrow hpred
    have h0 : List.countP
        (fun row => decide ((cellAt f.cols row "date").toStr = d)) f.rows = 0 := by
      unfold dateCount at hzero
      rw [← List.countP_eq_length_filter] at hzero
      exact hzero
    exact absurd (by simpa using hpred) (List.countP_eq_zero.mp h0 row hrow)
  unfold dateCount Frame.concat frameOfRows
  simp only [← List.countP_eq_length_filter, List.countP_append, List.countP_map]
  have hleft : List.countP
      ((fun row => decide ((cellAt (unionCols f.cols
          (rows2.foldl (fun a row => unionCols a (row.map Prod.fst)) []))
          row "date").toStr = d)) ∘
        (fun row => alignRow f.cols row (unionCols f.cols
          (rows2.foldl (fun a row => unionCols a (row.map Prod.fst)) []))))
      f.rows = 0 := by
    rw [List.countP_eq_zero]
    intro row hrow hpred
    simp only [Function.comp_apply, decide_eq_true_eq, cellAt_alignRow] at hpred
    by_cases hin : "date" ∈ unionCols f.cols
        (rows2.foldl (fun a row => unionCols a (row.map Prod.fst)) [])
    · rw [if_pos hin] at hpred
      exact hzero2 row hrow hpred
    · rw [if_neg hin] at hpred
      exact hd2 hpred.symm
  rw [hleft]
  rw [Nat.zero_add]
  apply List.countP_congr
  intro r hr
  simp only [Function.comp_apply, decide_eq_true_eq, cellAt_alignRow, cellAt_map_cols]
  cases hl : r.lookup "date" with
  | none =>
    have hrds : rowDateStr r = "" := by
      unfold rowDateStr
      rw [hl]
      rfl
    constructor
    · intro hpred
      exfalso
      by_cases hin : "date" ∈ unionCols f.cols
          (rows2.foldl (fun a row => unionCols a (row.map Prod.fst)) [])
      · rw [if_pos hin] at hpred
        by_cases hin2 : "date" ∈ rows2.foldl (fun a row => unionCols a (row.map Prod.fst)) []
        · rw [if_pos hin2] at hpred
          exact hd2 hpred.symm
        · rw [if_neg hin2] at hpred
          exact hd2 hpred.symm
      · rw [if_neg hin] at hpred
        exact hd2 hpred.symm
    · intro hpred
      rw [hrds] at hpred
      exact absurd hpred.symm hd1
  | some v =>
    have hrds : rowDateStr r = v.toStr := by
      unfold rowDateStr
      rw [hl]
      rfl
    by_cases hv : v.toStr = d
    · have hncs : "date" ∈ rows2.foldl (fun a row => unionCols a (row.map Prod.fst)) [] :=
        mem_foldl_unionCols "date" rows2 r hr (lookup_some_key hl) []
      have hcs : "date" ∈ unionCols f.cols
          (rows2.foldl (fun a row => unionCols a (row.map Prod.fst)) []) :=
        mem_unionCols.mpr (Or.inr hncs)
      rw [if_pos hcs, if_pos hncs, hrds]
      simp [hv]
    · constructor
      · intro hpred
        exfalso
        by_cases hin : "date" ∈ unionCols f.cols
            (rows2.foldl (fun a row => unionCols a (row.map Prod.fst)) [])
        · rw [if_pos hin] at hpred
          by_cases hin2 : "date" ∈ rows2.foldl (fun a row => unionCols a (row.map Prod.fst)) []
          · rw [if_pos hin2] at hpred
            exact hv hpred
          · rw [if_neg hin2] at hpred
            exact hd2 hpred.symm
        · rw [if_neg hin] at hpred
          exact hd2 hpred.symm
      · intro hpred
        rw [hrds] at hpred
        exact absurd hpred hv

/-- Re-sorting the stored rows never changes a per-date row count. -/
lemma dateCount_sortRows (cs : List String) (rows : List (List Val)) (d : String) :
    dateCount ⟨cs, sortRowsByStrKey cs "date" rows⟩ d = dateCount ⟨cs, rows⟩ d := by
  unfold dateCount
  rw [← List.countP_eq_length_filter, ← List.countP_eq_length_filter]
  exact (perm_sortRowsByStrKey cs "date" rows).countP_eq _

/-- Concatenating a batch frame none of whose incoming rows carries the
date `d` leaves the count of stored rows rendering `d` unchanged
(given the table has a date column and `d` is a real date string). -/
lemma dateCount_concat_frameOfRows_mem (f : Frame) (rows2 : List Rowd) (d : String)
    (hd2 : d ≠ "nan") (hcol : "date" ∈ f.cols)
    (hr2 : ∀ r ∈ rows2, rowDateStr r ≠ d) :
    dateCount (f.concat (frameOfRows rows2)) d = dateCount f d := by
  have hcs : "date" ∈ unionCols f.cols
      (rows2.foldl (fun a row => unionCols a (row.map Prod.fst)) []) :=
    mem_unionCols.mpr (Or.inl hcol)
  unfold dateCount Frame.concat frameOfRows
  simp only [← List.countP_eq_length_filter, List.countP_append, List.countP_map]
  have hleft : List.countP
      ((fun row => decide ((cellAt (unionCols f.cols
          (rows2.foldl (fun a row => unionCols a (row.map Prod.fst)) []))
          row "date").toStr = d)) ∘
        (fun row => alignRow f.cols row (unionCols f.cols
          (rows2.foldl (fun a row => unionCols a (row.map Prod.fst)) []))))
      f.rows =
      List.countP (fun row => decide ((cellAt f.cols row "date").toStr = d)) f.rows := by
    apply List.countP_congr
    intro row hrow
    simp only [Function.comp_apply, decide_eq_true_eq, cellAt_alignRow]
    rw [if_pos hcs]
  have hright : List.countP
      (((fun row => decide ((cellAt (unionCols f.cols
          (rows2.foldl (fun a row => unionCols a (row.map Prod.fst)) []))
          row "date").toStr = d)) ∘
        (fun row => alignRow
          (rows2.foldl (fun a row => unionCols a (row.map Prod.fst)) []) row
          (unionCols f.cols
            (rows2.foldl (fun a row => unionCols a (row.map Prod.fst)) [])))) ∘
        (fun row => (rows2.foldl (fun a row => unionCols a (row.map Prod.fst)) []).map
          (fun c => (row.lookup c).getD .null)))
      rows2 = 0 := by
    rw [List.countP_eq_zero]
    intro r hr hpred
    simp only [Function.comp_apply, decide_eq_true_eq, cellAt_alignRow,
      cellAt_map_cols] at hpred
    rw [if_pos hcs] at hpred
    by_cases hin2 : "date" ∈ rows2.foldl (fun a row => unionCols a (row.map Prod.fst)) []
    · rw [if_pos hin2] at hpred
      cases hl : r.lookup "date" with
      | none =>
        rw [hl] at hpred
        exact hd2 hpred.symm
      | some v =>
        rw [hl] at hpred
        refine hr2 r hr ?_
        unfold rowDateStr
        rw [hl]
        exact hpred
    · rw [if_neg hin2] at hpred
      exact hd2 hpred.symm
  rw [hleft, hright, Nat.add_zero]

/-- C7: `append_rows` filters incoming rows against the persisted snapshot
and only it: for a date `d` not yet persisted, the stored table afterwards
holds exactly as many rows for `d` as the incoming batch carried (so an
in-batch duplicate date is stored twice), while for a date `d` already in
the persisted snapshot every incoming row carrying `d` is dropped and the
stored count for `d` is unchanged. -/
theorem c7_batch_dedup_snapshot_only (f : Frame) (rows : List Rowd) (d : String)
    (hd1 : d ≠ "") (hd2 : d ≠ "nan") :
    (d ∉ snapshotDates f →
      dateCount (append_rows f rows) d =
        (rows.filter (fun row => rowDateStr row = d)).length) ∧
    (d ∈ snapshotDates f →
      dateCount (append_rows f rows) d = dateCount f d) := by
  constructor
  · intro hmem
    have hzero : dateCount f d = 0 := dateCount_zero f d hd2 hmem
    have hrhs : (rows.filter (fun row => rowDateStr row = d)).length =
        List.countP (fun row => rowDateStr row = d) (newBatchRows f rows) := by
      rw [← List.countP_eq_length_filter]
      unfold newBatchRows
      rw [List.countP_filter]
      apply List.countP_congr
      intro r _
      constructor
      · intro hp
        simp only [decide_eq_true_eq] at hp
        simp only [Bool.and_eq_true, decide_eq_true_eq]
        exact ⟨hp, by rw [hp]; exact hmem⟩
      · intro hp
        simp only [Bool.and_eq_true] at hp
        exact hp.1
    by_cases hrows : rows = []
    · subst hrows
      have he : append_rows f [] = f := by simp [append_rows]
      rw [he, hzero]
      rfl
    · by_cases hnew : newBatchRows f rows = []
      · simp only [append_rows]
        rw [if_neg hrows, if_pos hnew]
        rw [hzero, hrhs, hnew]
        rfl
      · simp only [append_rows]
        rw [if_neg hrows, if_neg hnew]
        have hcount2 := dateCount_concat_frameOfRows f (newBatchRows f rows) d hd1 hd2 hzero
        by_cases hdc : "date" ∈ (f.concat (frameOfRows (newBatchRows f rows))).cols
        · rw [if_pos hdc]
          rw [dateCount_sortRows, hcount2, hrhs]
        · rw [if_neg hdc]
          rw [hcount2, hrhs]
  · intro hsnap
    have hcond : f.rows ≠ [] ∧ "date" ∈ f.cols := by
      by_contra hc
      unfold snapshotDates at hsnap
      rw [if_neg hc] at hsnap
      exact absurd hsnap (List.not_mem_nil d)
    obtain ⟨hne, hcol⟩ := hcond
    have hr2 : ∀ r ∈ newBatchRows f rows, rowDateStr r ≠ d := by
      intro r hr he
      have hkeep := (List.mem_filter.mp hr).2
      simp only [decide_eq_true_eq] at hkeep
      exact hkeep (he ▸ hsnap)
    by_cases hrows : rows = []
    · subst hrows
      have he : append_rows f [] = f := by simp [append_rows]
      rw [he]
    · by_cases hnew : newBatchRows f rows = []
      · simp only [append_rows]
        rw [if_neg hrows, if_pos hnew]
      · simp only [append_rows]
        rw [if_neg hrows, if_neg hnew]
        have hcc := dateCount_concat_frameOfRows_mem f (newBatchRows f rows) d hd2 hcol hr2
        by_cases hdc : "date" ∈ (f.concat (frameOfRows (newBatchRows f rows))).cols
        · rw [if_pos hdc]
          rw [dateCount_sortRows]
          exact hcc
        · rw [if_neg hdc]
          exact hcc

/-- Witness for C7: a batch carrying the not-yet-persisted date
`2026-01-02` twice is stored twice, while a batch row carrying the
already-persisted date `2026-01-01` is dropped and that date's stored
count stays at one. -/
theorem c7_witness :
    dateCount (append_rows ⟨["date", "v"], [[.str "2026-01-01", .int 5]]⟩
      [[("date", Val.str "2026-01-02"), ("v", Val.int 1)],
       [("date", Val.str "2026-01-02"), ("v", Val.int 2)]]) "2026-01-02" = 2 ∧
    dateCount (append_rows ⟨["date", "v"], [[.str "2026-01-01", .int 5]]⟩
      [[("date", Val.str "2026-01-01"), ("v", Val.int 7)],
       [("date", Val.str "2026-01-02"), ("v", Val.int 1)]]) "2026-01-01" = 1 := by
  constructor
  · rw [(c7_batch_dedup_snapshot_only _ _ _ (by decide) (by decide)).1 (by decide)]
    decide
  · rw [(c7_batch_dedup_snapshot_only _ _ _ (by decide) (by decide)).2 (by decide)]
    decide

/-! ### C8 — chart scale guards -/

lemma foldl_min_const (v0 : Int) : ∀ xs : List Int,
    (∀ v ∈ xs, v = v0) → xs.foldl min v0 = v0
  | [], _ => rfl
  | y :: ys, h => by
    have hy : y = v0 := h y (List.mem_cons_self _ _)
    rw [List.foldl_cons, hy, min_self]
    exact foldl_min_const v0 ys (fun v hv => h v (List.mem_cons_of_mem _ hv))

lemma foldl_max_const (v0 : Int) : ∀ xs : List Int,
    (∀ v ∈ xs, v = v0) → xs.foldl max v0 = v0
  | [], _ => rfl
  | y :: ys, h => by
    have hy : y = v0 := h y (List.mem_cons_self _ _)
    rw [List.foldl_cons, hy, max_self]
    exact foldl_max_const v0 ys (fun v hv => h v (List.mem_cons_of_mem _ hv))

lemma listMin_const (l : List Int) (v0 : Int) (hne : l ≠ []) (h : ∀ v ∈ l, v = v0) :
    listMin l = v0 := by
  cases l with
  | nil => exact absurd rfl hne
  | cons x xs =>
    have hx : x = v0 := h x (List.mem_cons_self _ _)
    unfold listMin
    rw [List.headD_cons, List.foldl_cons, min_self, hx]
    exact foldl_min_const v0 xs (fun v hv => h v (List.mem_cons_of_mem _ hv))

lemma listMax_const (l : List Int) (v0 : Int) (hne : l ≠ []) (h : ∀ v ∈ l, v = v0) :
    listMax l = v0 := by
  cases l with
  | nil => exact absurd rfl hne
  | cons x xs =>
    have hx : x = v0 := h x (List.mem_cons_self _ _)
    unfold listMax
    rw [List.headD_cons, List.foldl_cons, max_self, hx]
    exact foldl_max_const v0 xs (fun v hv => h v (List.mem_cons_of_mem _ hv))

/-- Counterexample to C8 as stated: a two-date HIBOR series whose selected
values are all equal still produces a chart — the code clamps `val_range`
to 1 instead of returning the empty string. -/
theorem c8_counterexample :
    (∀ v ∈ chartAllVals ⟨["date", "Overnight"], [[.int 0, .int 5], [.int 1, .int 5]]⟩
        Frame.empty Frame.empty, v = 5) ∧
    buildHkdChartScale ⟨["date", "Overnight"], [[.int 0, .int 5], [.int 1, .int 5]]⟩
      Frame.empty Frame.empty ≠ none := by
  constructor
  · decide
  · decide

/-- C8 amended: the chart builder emits no chart when the selected
observations span a single date (`date_max = date_min`); but when all
selected values are equal while the dates span more than one date, a chart
IS emitted — `val_range` is clamped to 1 before the 5% padding, giving the
scale `[v − 0.05, v + 0.05]` (range `0.1`). -/
theorem c8_amended (hibor prime ib : Frame) (v0 : Int)
    (h1 : hibor.rows ≠ []) (h2 : "date" ∈ hibor.cols)
    (h3 : chartAllDates hibor prime ib ≠ [])
    (h4 : chartAllVals hibor prime ib ≠ [])
    (h5 : listMax (chartAllDates hibor prime ib) ≠ listMin (chartAllDates hibor prime ib))
    (h6 : ∀ v ∈ chartAllVals hibor prime ib, v = v0) :
    (∀ hb pr ibf : Frame,
      listMax (chartAllDates hb pr ibf) = listMin (chartAllDates hb pr ibf) →
      buildHkdChartScale hb pr ibf = none) ∧
    buildHkdChartScale hibor prime ib =
      some ⟨listMin (chartAllDates hibor prime ib), listMax (chartAllDates hibor prime ib),
            (v0 : ℚ) - 1 / 20, (v0 : ℚ) + 1 / 20, 1 / 10⟩ := by
  constructor
  · intro hb pr ibf heq
    simp only [buildHkdChartScale]
    by_cases g1 : hb.rows = [] ∨ "date" ∉ hb.cols
    · rw [if_pos g1]
    · rw [if_neg g1]
      by_cases g2 : chartAllDates hb pr ibf = [] ∨ chartAllVals hb pr ibf = []
      · rw [if_pos g2]
      · rw [if_neg g2]
        rw [if_pos (sub_eq_zero.mpr heq)]
  · simp only [buildHkdChartScale]
    rw [if_neg (not_or.mpr ⟨h1, fun hn => hn h2⟩)]
    rw [if_neg (not_or.mpr ⟨h3, h4⟩)]
    rw [if_neg (sub_ne_zero.mpr h5)]
    rw [listMin_const (chartAllVals hibor prime ib) v0 h4 h6,
        listMax_const (chartAllVals hibor prime ib) v0 h4 h6]
    rw [if_pos (by simp : ((v0 : Int) : ℚ) - ((v0 : Int) : ℚ) = 0)]
    simp only [Option.some.injEq, ChartScale.mk.injEq]
    refine ⟨trivial, trivial, by ring, by ring, by ring⟩

/-- Witness for the amended C8: the constant-valued two-date series yields
a chart with the clamped scale `[5 − 0.05, 5 + 0.05]`. -/
theorem c8_witness :
    buildHkdChartScale ⟨["date", "Overnight"], [[.int 0, .int 5], [.int 1, .int 5]]⟩
      Frame.empty Frame.empty =
    some ⟨listMin (chartAllDates ⟨["date", "Overnight"], [[.int 0, .int 5], [.int 1, .int 5]]⟩
            Frame.empty Frame.empty),
          listMax (chartAllDates ⟨["date", "Overnight"], [[.int 0, .int 5], [.int 1, .int 5]]⟩
            Frame.empty Frame.empty),
          (5 : ℚ) - 1 / 20, (5 : ℚ) + 1 / 20, 1 / 10⟩ :=
  (c8_amended ⟨["date", "Overnight"], [[.int 0, .int 5], [.int 1, .int 5]]⟩
    Frame.empty Frame.empty 5 (by decide) (by decide) (by decide) (by decide)
    (by decide) (by decide)).2

end RMonitor
